import Mathlib

/-!
Verification development for the contour engine of bezitopo (src/contour.cpp).

The C++ code is shallowly embedded: machine doubles/floats are modelled by ℚ,
NaN-able scalars by `Option ℚ`, NaN-able 2-D points by the inductive `XY`,
and the external triangle/edge collaborators (whose implementations live
outside contour.cpp) by structures of abstract functions.  Loops with
iteration caps are embedded as fuel-bounded recursion where the fuel equals
the cap written in the source; the unbounded outer tracing loop takes an
explicit fuel parameter and records whether it sufficed.
-/

set_option maxRecDepth 10000

namespace Bezitopo

/-- Round to nearest, ties to even: the C library `rint` under the default
rounding mode, as used in `splitpoint` (contour.cpp line 51). -/
def rint (x : ℚ) : ℤ :=
  if x - Int.floor x < 1/2 then Int.floor x
  else if x - Int.floor x > 1/2 then Int.floor x + 1
  else if Int.floor x % 2 = 0 then Int.floor x else Int.floor x + 1

/-- The 65-entry split-fraction table `splittab` (contour.cpp lines 25-32). -/
def splittab : List ℚ :=
  [2113/10000,2123/10000,2134/10000,2145/10000,2156/10000,2167/10000,2179/10000,
   2191/10000,2204/10000,2216/10000,2229/10000,2244/10000,2257/10000,2272/10000,
   2288/10000,2303/10000,2319/10000,2337/10000,2354/10000,2372/10000,2390/10000,
   2410/10000,2430/10000,2451/10000,2472/10000,2495/10000,2519/10000,2544/10000,
   2570/10000,2597/10000,2625/10000,2654/10000,2684/10000,2716/10000,2750/10000,
   2786/10000,2823/10000,2861/10000,2902/10000,2945/10000,2990/10000,3038/10000,
   3088/10000,3141/10000,3198/10000,3258/10000,3320/10000,3386/10000,3454/10000,
   3527/10000,3605/10000,3687/10000,3773/10000,3862/10000,3955/10000,4053/10000,
   4153/10000,4256/10000,4362/10000,4469/10000,4577/10000,4684/10000,4792/10000,
   4897/10000,5000/10000]

/-- Modelled from the spec: the constant `CCHALONG` is defined outside the
provided sources; the spec describes it as the fixed near-start split
fraction, approximately 0.2113. -/
def CCHALONG : ℚ := 2113/10000

/-- Embeds `whichbig=fabs(rightclamp)>fabs(leftclamp)` (contour.cpp line 49). -/
def splitWhichbig (l r : ℚ) : Bool := |l| < |r|

/-- The divisor used to form the ratio in `splitpoint` (contour.cpp line 50). -/
def splitDenom (l r : ℚ) : ℚ := if splitWhichbig l r then r else l

/-- Embeds `ratio=whichbig?(leftclamp/rightclamp):(rightclamp/leftclamp)`
(contour.cpp line 50). -/
def splitQuot (l r : ℚ) : ℚ := if splitWhichbig l r then l / r else r / l

/-- The table index `(int)rint((ratio+1)*32)` (contour.cpp line 51). -/
def splitIdx (l r : ℚ) : ℤ := rint ((splitQuot l r + 1) * 32)

/-- Embeds `splitpoint` (contour.cpp lines 34-58).  A NaN clamp value is
modelled as `none`.  The C array access `splittab[i]` is modelled by `getD`
with default 0 (the in-bounds property is proved separately). -/
def splitpoint (leftclamp rightclamp : Option ℚ) (tolerance : ℚ) : ℚ :=
  match leftclamp with
  | none => CCHALONG
  | some l =>
    match rightclamp with
    | none => 1 - CCHALONG
    | some r =>
      if |l| * 27 > tolerance * 23 ∨ |r| * 27 > tolerance * 23 then
        let sp := splittab.getD (splitIdx l r).toNat 0
        if splitWhichbig l r then 1 - sp else sp
      else 0

/-- Embeds `wide=((sz>2*origsz)?(sz/(double)origsz):1)*(k?0.5:0.1)`
(contour.cpp line 307): the tolerance multiplier of smoothing pass `k`. -/
def smoothPassWide (k sz origsz : ℕ) : ℚ :=
  (if 2 * origsz < sz then (sz : ℚ) / (origsz : ℚ) else 1) * (if k = 0 then 1/10 else 1/2)

/-- The tolerance handed to `splitpoint` in the triangle-local branch of
`smoothcontours` (contour.cpp line 321): `conterval*wide`. -/
def smoothPassTolerance (conterval : ℚ) (k sz origsz : ℕ) : ℚ :=
  conterval * smoothPassWide k sz origsz

/-- Embeds `if (k) pl.contours[i].smooth();` (contour.cpp lines 301-302):
whether smoothing pass `k` first converts the polyline to spiral arcs. -/
def smoothPassConvertsFirst (k : ℕ) : Bool := !(k = 0)

/-- Which elevation probe the split-fraction computation of `smoothcontours`
uses for a visited segment. -/
inductive ElevSource where
  | triLocal
  | meshWide
  | defaultHalf
deriving DecidableEq

/-- Embeds the branch structure of contour.cpp lines 315-326 deciding how the
two deviations for `splitpoint` are produced.  `found` is whether
`pl.qinx.findt` of the segment midpoint returned a triangle; `inStart`,
`inEnd`, `inLpt`, `inRpt` are that triangle's containment tests of the
segment's start, end and the two sample points. -/
def smoothElevSource (found inStart inEnd inLpt inRpt : Bool) : ElevSource :=
  if found then
    if inStart && inEnd && !(inLpt && inRpt) then ElevSource.meshWide
    else ElevSource.triLocal
  else ElevSource.defaultHalf

/-- Embeds the same branch (contour.cpp lines 315-326) at the value level:
given the deviation pairs that the mesh-wide probe and the triangle-local
probe would produce, return the split fraction `sp` and whether the
null-triangle anomaly is reported. -/
def smoothSplitFraction (found inStart inEnd inLpt inRpt : Bool)
    (devMeshL devMeshR devTriL devTriR : Option ℚ) (conterval wide : ℚ) : ℚ × Bool :=
  if found then
    if inStart && inEnd && !(inLpt && inRpt) then
      (splitpoint devMeshL devMeshR 0, false)
    else
      (splitpoint devTriL devTriR (conterval * wide), false)
  else (1/2, true)

/-- A 2-D point as produced by `triangle::contourcept`: either a finite pair
of coordinates or NaN (an indeterminate crossing). -/
inductive XY where
  | nan : XY
  | fin : ℚ → ℚ → XY
deriving DecidableEq

/-- Embeds `xy::isfinite()`. -/
def XY.isfinite : XY → Bool
  | XY.nan => false
  | XY.fin _ _ => true

/-- Embeds the C++ `xy` inequality `!=` under IEEE semantics: any comparison
involving NaN is an inequality, finite points compare componentwise. -/
def XY.cne : XY → XY → Bool
  | XY.fin x y, XY.fin x' y' => !(x = x' && y = y')
  | _, _ => true

/-- The diagnostic messages `trace`, `intrace` and `smoothcontours` can print
(contour.cpp lines 155, 171, 179, 191, 197, 206, 325). -/
inductive Report where
  | startNan
  | proceedFail
  | repeatedCept
  | edgeUnchanged
  | proceedFailMid
  | midTriangleStop
  | midptriNull
deriving DecidableEq

/-- The per-triangle interface consumed by contour.cpp: `subdir`, `crosses`,
`upleft`, `proceed`, `contourcept`, `edgepart` and the subdivision size.
These live outside the provided sources, so they are abstract functions. -/
structure Triangle where
  subdir : ℕ → ℤ
  crosses : ℤ → ℚ → Bool
  upleft : ℤ → Bool
  proceed : ℤ → ℚ → ℤ
  contourcept : ℤ → ℚ → XY
  edgepart : ℤ → ℕ
  subdivSize : ℕ

/-- A mesh edge: its interior flag and the (optional) indices of its two
adjacent triangles `tria` and `trib`. -/
structure Edge where
  isinterior : Bool
  tria : Option ℕ
  trib : Option ℕ

/-- The slice of `pointlist` that contour.cpp reads: the edge list and the
triangle list. -/
structure Pointlist where
  edges : List Edge
  triangles : List Triangle

/-- Edge handles: the C code forms `ep = j + (uintptr_t)&pts.edges[i]` with
`j ∈ {0,1,2}` and edges aligned to 4 bytes; the model places edge `i` at
address `4*(i+1)` (nonzero, as a real address is), so handle `ep` carries
edge index `ep/4 - 1` and side `ep % 4`. -/
def edgeHandle (i j : ℕ) : ℕ := 4 * (i + 1) + j

/-- Decodes `(edge *)(ep&-4)`: the edge an oriented handle points into. -/
def Pointlist.getEdge (pl : Pointlist) (ep : ℕ) : Option Edge :=
  pl.edges.get? (ep / 4 - 1)

/-- Looks a triangle id up in the mesh (dereferencing a triangle pointer). -/
def Pointlist.getTri (pl : Pointlist) (t : ℕ) : Option Triangle :=
  pl.triangles.get? t

/-- Modelled from the spec: `edge::othertri` (defined outside the provided
sources) returns the adjacent triangle other than the given one. -/
def Edge.othertri (e : Edge) (t : ℕ) : Option ℕ :=
  if e.tria = some t then e.trib else e.tria

/-- Basic sanity of a mesh model: every triangle id stored on an edge
resolves to a triangle of the list.  In C this is the assumption that the
`tria`/`trib` pointers are valid; violating it is undefined behavior. -/
def Pointlist.wfb (pl : Pointlist) : Bool :=
  pl.edges.all fun e =>
    (match e.tria with
     | some t => decide (t < pl.triangles.length)
     | none => true) &&
    (match e.trib with
     | some t => decide (t < pl.triangles.length)
     | none => true)

/-- The seeds contributed by edge `i` during pass `io` of `contstarts`
(contour.cpp lines 70-87): the edge participates when `io` equals its
interior flag; `tri` is `tria`, or `trib` when `tria` is null (the `assert`
on a doubly-null edge is modelled as an empty contribution); a crossing at
side `j` is a seed when `crosses` holds and (`io` or `upleft`). -/
def contstartsEdge (pl : Pointlist) (elev : ℚ) (io : ℕ) (i : ℕ) : List ℕ :=
  match pl.edges.get? i with
  | none => []
  | some e =>
    if io = (if e.isinterior then 1 else 0) then
      match (match e.tria with | some t => some t | none => e.trib) with
      | none => []
      | some tid =>
        match pl.getTri tid with
        | none => []
        | some tri =>
          (List.range 3).filterMap fun j =>
            let ep := edgeHandle i j
            let sd := tri.subdir ep
            if tri.crosses sd elev && (decide (io ≠ 0) || tri.upleft sd) then some ep
            else none
    else []

/-- Embeds `contstarts` (contour.cpp lines 60-90): two passes `io = 0, 1`
over the whole edge list. -/
def contstarts (pl : Pointlist) (elev : ℚ) : List ℕ :=
  (List.range 2).flatMap fun io =>
    (List.range pl.edges.length).flatMap (contstartsEdge pl elev io)

/-- The crossings of edge `i` that cross the elevation, with no orientation
filter. -/
def edgeSeedsAll (elev : ℚ) (i : ℕ) (tri : Triangle) : List ℕ :=
  (List.range 3).filterMap fun j =>
    let ep := edgeHandle i j
    let sd := tri.subdir ep
    if tri.crosses sd elev then some ep else none

/-- The crossings of edge `i` that cross the elevation and are classified
`upleft`. -/
def edgeSeedsUpleft (elev : ℚ) (i : ℕ) (tri : Triangle) : List ℕ :=
  (List.range 3).filterMap fun j =>
    let ep := edgeHandle i j
    let sd := tri.subdir ep
    if tri.crosses sd elev && tri.upleft sd then some ep else none

/-- The triangle `contstarts` consults for edge `i`, when the edge and a
triangle exist. -/
def edgeTriOf (pl : Pointlist) (i : ℕ) : Option Triangle :=
  match pl.edges.get? i with
  | none => none
  | some e =>
    match (match e.tria with | some t => some t | none => e.trib) with
    | none => none
    | some tid => pl.getTri tid

/-- The seed list described by the specification: scan exterior edges first,
taking every crossing; then interior edges, taking only `upleft` crossings;
each pass in edge-storage order. -/
def contstartsClaimed (pl : Pointlist) (elev : ℚ) : List ℕ :=
  ((List.range pl.edges.length).flatMap fun i =>
    match pl.edges.get? i, edgeTriOf pl i with
    | some e, some tri => if e.isinterior then [] else edgeSeedsAll elev i tri
    | _, _ => []) ++
  ((List.range pl.edges.length).flatMap fun i =>
    match pl.edges.get? i, edgeTriOf pl i with
    | some e, some tri => if e.isinterior then edgeSeedsUpleft elev i tri else []
    | _, _ => [])

/-- The seed list the code actually produces, written as two explicit
passes: exterior edges first taking only `upleft` crossings, then interior
edges taking every crossing; each pass in edge-storage order. -/
def contstartsTwoPass (pl : Pointlist) (elev : ℚ) : List ℕ :=
  ((List.range pl.edges.length).flatMap fun i =>
    match pl.edges.get? i, edgeTriOf pl i with
    | some e, some tri => if e.isinterior then [] else edgeSeedsUpleft elev i tri
    | _, _ => []) ++
  ((List.range pl.edges.length).flatMap fun i =>
    match pl.edges.get? i, edgeTriOf pl i with
    | some e, some tri => if e.isinterior then edgeSeedsAll elev i tri else []
    | _, _ => [])

/-- The per-edge visitation marks.  `edge::mark` sets a bit per directed
side; the model records every `mark(ep)` call by consing the handle, so a
handle is marked when it occurs and the number of occurrences counts the
mark invocations of one sweep. -/
def markCall (ep : ℕ) (marks : List ℕ) : List ℕ := ep :: marks

/-- Embeds `ismarked` (contour.cpp lines 97-100). -/
def ismarked (ep : ℕ) (marks : List ℕ) : Bool := marks.contains ep

/-- State of the inner `proceed` loop of `trace` (contour.cpp lines 164-185):
current sub-segment, last `proceed` result, last crossing point, points
accumulated so far, diagnostics, and the iteration counter `i`. -/
structure InnerState where
  subedge : ℤ
  subnext : ℤ
  lastcept : XY
  pts : List XY
  reports : List Report
  steps : ℕ

/-- One iteration of the inner loop body (contour.cpp lines 166-184). -/
def innerBody (tri : Triangle) (elev : ℚ) (s : InnerState) : InnerState :=
  let subnext := tri.proceed s.subedge elev
  if 0 ≤ subnext then
    let reps := if subnext = s.subedge then s.reports ++ [Report.proceedFail] else s.reports
    let thiscept := tri.contourcept subnext elev
    if thiscept.isfinite then
      if XY.cne thiscept s.lastcept then
        { subedge := subnext, subnext := subnext, lastcept := thiscept,
          pts := s.pts ++ [thiscept], reports := reps, steps := s.steps + 1 }
      else
        { subedge := subnext, subnext := subnext, lastcept := thiscept,
          pts := s.pts, reports := reps ++ [Report.repeatedCept], steps := s.steps + 1 }
    else
      { subedge := subnext, subnext := subnext, lastcept := s.lastcept,
        pts := s.pts, reports := reps, steps := s.steps + 1 }
  else
    { s with subnext := subnext, steps := s.steps + 1 }

/-- The inner do-while loop `do {...} while (subnext>=0 && ++i<256)`
(contour.cpp lines 165-185), as fuel-bounded recursion; `trace` enters it
with fuel 256 and `steps = 0`, which makes the fuel and the C counter check
coincide. -/
def innerLoop (tri : Triangle) (elev : ℚ) : ℕ → InnerState → InnerState
  | 0, s => s
  | fuel + 1, s =>
    let s' := innerBody tri elev s
    if 0 ≤ s'.subnext ∧ s'.steps < 256 then innerLoop tri elev fuel s' else s'

/-- State of the outer tracing loop of `trace` (contour.cpp lines 159-225). -/
structure TraceState where
  edgep : ℕ
  triId : ℕ
  ntri : Option ℕ
  wasmarked : Bool
  lastcept : XY
  firstcept : XY
  pts : List XY
  marks : List ℕ
  reports : List Report
  finished : Bool

/-- The run of the inner loop that one outer iteration of `trace` performs:
fuel 256 (the C counter cap), starting at `subdir` of the current handle
with no steps taken. -/
def innerRun (tri : Triangle) (elev : ℚ) (s : TraceState) : InnerState :=
  innerLoop tri elev 256
    { subedge := tri.subdir s.edgep, subnext := 0, lastcept := s.lastcept,
      pts := s.pts, reports := s.reports, steps := 0 }

/-- The handle `edgep=tri->edgepart(subedge)` after the inner loop
(contour.cpp line 187). -/
def exitEp (tri : Triangle) (elev : ℚ) (s : TraceState) : ℕ :=
  tri.edgepart (innerRun tri elev s).subedge

/-- The crossing point of the exit handle (contour.cpp line 215). -/
def exitCept (tri : Triangle) (elev : ℚ) (s : TraceState) : XY :=
  tri.contourcept (tri.subdir (exitEp tri elev s)) elev

/-- The diagnostics after the unchanged-edge check (contour.cpp lines
189-201): `Edge didn't change` when `edgepart` returned the same handle,
then possibly a second `proceed failed!`. -/
def exitReports (tri : Triangle) (elev : ℚ) (s : TraceState) : List Report :=
  if exitEp tri elev s = s.edgep then
    ((innerRun tri elev s).reports ++ [Report.edgeUnchanged]) ++
      (if 0 ≤ tri.proceed (tri.subdir (exitEp tri elev s)) elev ∧
          tri.proceed (tri.subdir (exitEp tri elev s)) elev =
            tri.subdir (exitEp tri elev s)
       then [Report.proceedFailMid] else [])
  else (innerRun tri elev s).reports

/-- `ntri=((edge *)(edgep&-4))->othertri(tri)` (contour.cpp line 221); a
handle whose edge does not resolve yields `none`. -/
def nextNtri (pl : Pointlist) (tri : Triangle) (elev : ℚ) (s : TraceState) : Option ℕ :=
  match pl.getEdge (exitEp tri elev s) with
  | none => none
  | some e => e.othertri s.triId

/-- `if (ntri) tri=ntri;` (contour.cpp lines 223-224). -/
def nextTriId (pl : Pointlist) (tri : Triangle) (elev : ℚ) (s : TraceState) : ℕ :=
  match nextNtri pl tri elev s with
  | some t => t
  | none => s.triId

/-- One iteration of the outer tracing loop (contour.cpp lines 159-224):
run the inner loop, map the exit sub-segment to an edge via `edgepart`,
handle the unchanged-edge and mid-triangle cases, else record/mark the
crossing and move to the neighboring triangle.  Dereferencing an
unresolvable triangle id (undefined behavior in C) is modelled by an
aborted state with `finished := false`, as is reading an edge from an
unresolvable handle. -/
def outerBody (pl : Pointlist) (elev : ℚ) (s : TraceState) : TraceState :=
  match pl.getTri s.triId with
  | none => { s with ntri := none, finished := false }
  | some tri =>
    if exitEp tri elev s = 0 then
      { edgep := exitEp tri elev s, triId := s.triId, ntri := none,
        wasmarked := s.wasmarked, lastcept := (innerRun tri elev s).lastcept,
        firstcept := s.firstcept, pts := (innerRun tri elev s).pts,
        marks := s.marks,
        reports := exitReports tri elev s ++ [Report.midTriangleStop],
        finished := s.finished }
    else
      { edgep := exitEp tri elev s,
        triId := nextTriId pl tri elev s,
        ntri := nextNtri pl tri elev s,
        wasmarked := ismarked (exitEp tri elev s) s.marks,
        lastcept :=
          if ismarked (exitEp tri elev s) s.marks then (innerRun tri elev s).lastcept
          else exitCept tri elev s,
        firstcept := s.firstcept,
        pts :=
          if ismarked (exitEp tri elev s) s.marks then (innerRun tri elev s).pts
          else if XY.cne (exitCept tri elev s) (innerRun tri elev s).lastcept &&
              XY.cne (exitCept tri elev s) s.firstcept &&
              XY.isfinite (exitCept tri elev s) then
            (innerRun tri elev s).pts ++ [exitCept tri elev s]
          else (innerRun tri elev s).pts,
        marks := markCall (exitEp tri elev s) s.marks,
        reports := exitReports tri elev s,
        finished :=
          match pl.getEdge (exitEp tri elev s) with
          | none => false
          | some _ => s.finished }

/-- The outer do-while loop `do {...} while (ntri && !wasmarked)`
(contour.cpp lines 159-225), with explicit fuel; running out of fuel while
the loop would continue leaves `finished := false`. -/
def outerLoop (pl : Pointlist) (elev : ℚ) : ℕ → TraceState → TraceState
  | 0, s => { s with finished := false }
  | fuel + 1, s =>
    let s' := outerBody pl elev s
    if s'.ntri.isSome ∧ s'.wasmarked = false then outerLoop pl elev fuel s' else s'

/-- The outcome of `trace`: the polyline (points and open flag), the mark
state, diagnostics, whether the model's fuel sufficed (`finished`), whether
the outer walk was entered at all (`walked`), and the walk's final `ntri`
and `wasmarked` values. -/
structure TraceResult where
  pts : List XY
  isOpen : Bool
  marks : List ℕ
  reports : List Report
  finished : Bool
  walked : Bool
  finalNtri : Option ℕ
  finalWasmarked : Bool

/-- Embeds `trace` (contour.cpp lines 138-229).  The initiating triangle is
`tria`, or `trib` when `tria` is null or the crossing is not `upleft`
there; the seed is marked, its crossing point recorded unless NaN, and the
outer loop is run.  Paths on which the C code would dereference an invalid
pointer return with `finished := false`; the seed mark at line 150 happens
before any such dereference except the `upleft` test on `tria`. -/
def trace (pl : Pointlist) (edgep : ℕ) (elev : ℚ) (fuel : ℕ) (marks : List ℕ) :
    TraceResult :=
  match pl.getEdge edgep with
  | none =>
    { pts := [], isOpen := false, marks := marks, reports := [], finished := false,
      walked := false, finalNtri := none, finalWasmarked := false }
  | some e =>
    let sel : Option (Option ℕ) :=
      match e.tria with
      | none => some e.trib
      | some tid =>
        match pl.getTri tid with
        | none => none
        | some tri0 =>
          if tri0.upleft (tri0.subdir edgep) then some (some tid) else some e.trib
    match sel with
    | none =>
      { pts := [], isOpen := false, marks := marks, reports := [], finished := false,
        walked := false, finalNtri := none, finalWasmarked := false }
    | some chosen =>
      let marks1 := markCall edgep marks
      match chosen with
      | none =>
        { pts := [], isOpen := false, marks := marks1, reports := [], finished := false,
          walked := false, finalNtri := none, finalWasmarked := false }
      | some tid =>
        match pl.getTri tid with
        | none =>
          { pts := [], isOpen := false, marks := marks1, reports := [], finished := false,
            walked := false, finalNtri := none, finalWasmarked := false }
        | some tri =>
          let firstcept := tri.contourcept (tri.subdir edgep) elev
          if firstcept.isfinite then
            let fin := outerLoop pl elev fuel
              { edgep := edgep, triId := tid, ntri := e.trib, wasmarked := false,
                lastcept := firstcept, firstcept := firstcept, pts := [firstcept],
                marks := marks1, reports := [], finished := true }
            { pts := fin.pts, isOpen := fin.ntri.isNone, marks := fin.marks,
              reports := fin.reports, finished := fin.finished, walked := true,
              finalNtri := fin.ntri, finalWasmarked := fin.wasmarked }
          else
            { pts := [], isOpen := false, marks := marks1, reports := [Report.startNan],
              finished := true, walked := false, finalNtri := none,
              finalWasmarked := false }

/-- The sub-segment collection loop of `intrace` (contour.cpp line 123):
`for (j=start; sube.size()==0 || (j&65535)>(start&65535) &&
(j&65535)<tri->subdiv.size() && sube.size()<256; j=tri->proceed(j,elev))
sube.push_back(j);`.  `intrace` runs it with fuel 257, which the
`sube.size()<256` conjunct makes sufficient. -/
def inloop (tri : Triangle) (elev : ℚ) (start : ℤ) :
    ℕ → ℤ → List ℤ → ℤ × List ℤ
  | 0, j, sube => (j, sube)
  | fuel + 1, j, sube =>
    if sube = [] ∨ (start.emod 65536 < j.emod 65536 ∧
        j.emod 65536 < (tri.subdivSize : ℤ) ∧ sube.length < 256) then
      inloop tri elev start fuel (tri.proceed j elev) (sube ++ [j])
    else (j, sube)

/-- The scan of `intrace` over the triangle's sub-segments (contour.cpp
lines 116-127): at each crossing start a collection loop; break when the
loop returned to its start. -/
def intraceScan (tri : Triangle) (elev : ℚ) :
    List ℕ → ℤ → ℤ → List ℤ → ℤ × ℤ × List ℤ
  | [], j, start, sube => (j, start, sube)
  | i :: rest, j, start, sube =>
    if tri.crosses (i : ℤ) elev then
      let start' : ℤ := if tri.upleft (i : ℤ) then (i : ℤ) else (i : ℤ) + 65536
      let r := inloop tri elev start' 257 start' []
      if r.1 = start' then (r.1, start', r.2)
      else intraceScan tri elev rest r.1 start' r.2
    else intraceScan tri elev rest j start sube

/-- Embeds `intrace` (contour.cpp lines 102-136): the wholly-interior
contour of one triangle, as its list of finite crossing points. -/
def intrace (tri : Triangle) (elev : ℚ) : List XY :=
  let r := intraceScan tri elev (List.range tri.subdivSize) (-610) (-987) []
  if r.1 = r.2.1 then
    r.2.2.filterMap fun sd =>
      let cept := tri.contourcept sd elev
      if cept.isfinite then some cept else none
  else []

/-- Modelled from the spec: `polyline::dedup` (defined outside the provided
sources) removes consecutive duplicate points. -/
def dedup : List XY → List XY
  | [] => []
  | [a] => [a]
  | a :: b :: t => if a = b then dedup (b :: t) else a :: dedup (b :: t)

/-- The per-level seed loop of `roughcontours` (contour.cpp lines 248-256):
trace every not-yet-marked seed, threading the mark state. -/
def seedLoop (pl : Pointlist) (elev : ℚ) (fuel : ℕ) :
    List ℕ → List ℕ → List (List XY × Bool) → List ℕ × List (List XY × Bool)
  | [], marks, acc => (marks, acc)
  | sd :: rest, marks, acc =>
    if ismarked sd marks then seedLoop pl elev fuel rest marks acc
    else
      let r := trace pl sd elev fuel marks
      seedLoop pl elev fuel rest r.marks (acc ++ [(dedup r.pts, r.isOpen)])

/-- One elevation level of `roughcontours` (contour.cpp lines 246-265):
clear marks, trace every unmarked seed of `contstarts`, then run `intrace`
over every triangle, keeping nonempty results.  Returns the final mark
state and the collected contours. -/
def roughcontoursLevel (pl : Pointlist) (elev : ℚ) (fuel : ℕ) :
    List ℕ × List (List XY × Bool) :=
  let r := seedLoop pl elev fuel (contstarts pl elev) [] []
  (r.1, r.2 ++ pl.triangles.filterMap fun tri =>
    let c := intrace tri elev
    if c = [] then none else some (c, false))

/-! Concrete meshes used as witnesses and counterexamples. -/

/-- A triangle whose single crossing is never `upleft` and always crosses. -/
def tri0 : Triangle :=
  { subdir := fun ep => (ep : ℤ) % 4, crosses := fun _ _ => true,
    upleft := fun _ => false, proceed := fun _ _ => -1,
    contourcept := fun _ _ => XY.nan, edgepart := fun _ => 0, subdivSize := 0 }

/-- A one-edge, one-triangle mesh whose only edge is exterior and whose
crossings are not `upleft`. -/
def pl0 : Pointlist :=
  { edges := [{ isinterior := false, tria := some 0, trib := none }],
    triangles := [tri0] }

/-- A triangle that crosses only at sub-segment 0, is always `upleft`, exits
its inner loop immediately, and maps every exit back to handle 4. -/
def triA : Triangle :=
  { subdir := fun ep => (ep : ℤ) % 4,
    crosses := fun sd _ => sd = 0,
    upleft := fun _ => true,
    proceed := fun _ _ => -1,
    contourcept := fun _ _ => XY.fin 0 0,
    edgepart := fun _ => 4, subdivSize := 0 }

/-- A one-interior-edge mesh on which the boundary trace closes on its own
seed in one step. -/
def pl1 : Pointlist :=
  { edges := [{ isinterior := true, tria := some 0, trib := some 1 }],
    triangles := [triA, triA] }

/-- A triangle whose `proceed` alternates between sub-segments 0 and 1
forever, with indeterminate crossing points. -/
def triB : Triangle :=
  { subdir := fun _ => 0,
    crosses := fun _ _ => true,
    upleft := fun _ => true,
    proceed := fun s _ => if s = 0 then 1 else 0,
    contourcept := fun _ _ => XY.nan,
    edgepart := fun _ => 0, subdivSize := 0 }

/-- The inner-loop state `trace` starts each triangle with, at sub-segment 0
and no accumulated points. -/
def innerStart0 : InnerState :=
  { subedge := 0, subnext := 0, lastcept := XY.nan, pts := [], reports := [],
    steps := 0 }

/-! Helper lemmas about `rint` and `splittab`. -/

lemma rint_nonneg {x : ℚ} (h : 0 ≤ x) : 0 ≤ rint x := by
  have hf : 0 ≤ ⌊x⌋ := Int.floor_nonneg.mpr h
  unfold rint
  split_ifs <;> omega

lemma rint_le_64 {x : ℚ} (h : x ≤ 64) : rint x ≤ 64 := by
  have hfl : (⌊x⌋ : ℚ) ≤ x := Int.floor_le x
  have hf : ⌊x⌋ ≤ 64 := by
    have h64 : ⌊x⌋ ≤ ⌊(64 : ℚ)⌋ := Int.floor_le_floor h
    simpa using h64
  have key : ∀ hh : ¬ x - (⌊x⌋ : ℚ) < 1/2, ⌊x⌋ ≤ 63 := by
    intro hh
    push_neg at hh
    have h1 : (⌊x⌋ : ℚ) ≤ x - 1/2 := by linarith
    have h2 : (2 * ⌊x⌋ : ℚ) ≤ 127 := by linarith
    have h3 : 2 * ⌊x⌋ ≤ 127 := by exact_mod_cast h2
    omega
  unfold rint
  split_ifs with h1 h2 h3
  · exact hf
  · have := key h1; omega
  · have := key h1; omega
  · have := key h1; omega

lemma splittab_length : splittab.length = 65 := by decide

lemma splittab_mem_bounds : ∀ q ∈ splittab, 2113/10000 ≤ q ∧ q ≤ 1/2 := by
  intro q hq
  fin_cases hq <;> norm_num

lemma splittab_getD_mem {i : ℕ} (h : i < splittab.length) :
    splittab.getD i 0 ∈ splittab := by
  rw [List.getD_eq_getElem?_getD, List.getElem?_eq_getElem h]
  exact List.getElem_mem h

/-! Helper lemmas about the split branch of `splitpoint`. -/

lemma splitDenom_abs_pos {l r tol : ℚ} (ht : 0 < tol)
    (hbig : |l| * 27 > tol * 23 ∨ |r| * 27 > tol * 23) :
    0 < |splitDenom l r| := by
  have hpos : 0 < tol * 23 := by positivity
  unfold splitDenom splitWhichbig
  by_cases hw : |l| < |r|
  · rw [if_pos (by simpa using hw)]
    exact lt_of_le_of_lt (abs_nonneg l) hw
  · rw [if_neg (by simpa using hw)]
    push_neg at hw
    rcases hbig with hb | hb
    · nlinarith [abs_nonneg l]
    · nlinarith [abs_nonneg r]

lemma splitQuot_abs_le {l r tol : ℚ} (ht : 0 < tol)
    (hbig : |l| * 27 > tol * 23 ∨ |r| * 27 > tol * 23) :
    |splitQuot l r| ≤ 1 := by
  have habs := splitDenom_abs_pos ht hbig
  unfold splitQuot splitWhichbig
  unfold splitDenom splitWhichbig at habs
  by_cases hw : |l| < |r|
  · rw [if_pos (by simpa using hw)] at habs ⊢
    rw [abs_div, div_le_one habs]
    exact le_of_lt hw
  · rw [if_neg (by simpa using hw)] at habs ⊢
    push_neg at hw
    rw [abs_div, div_le_one habs]
    exact hw

lemma split_branch_facts {l r tol : ℚ} (ht : 0 < tol)
    (hbig : |l| * 27 > tol * 23 ∨ |r| * 27 > tol * 23) :
    splitDenom l r ≠ 0 ∧ -1 ≤ splitQuot l r ∧ splitQuot l r ≤ 1 := by
  have habs := splitDenom_abs_pos ht hbig
  have hq := abs_le.mp (splitQuot_abs_le ht hbig)
  exact ⟨abs_pos.mp habs, hq.1, hq.2⟩

lemma splitIdx_bounds {l r tol : ℚ} (ht : 0 < tol)
    (hbig : |l| * 27 > tol * 23 ∨ |r| * 27 > tol * 23) :
    0 ≤ splitIdx l r ∧ splitIdx l r ≤ 64 := by
  obtain ⟨-, hq1, hq2⟩ := split_branch_facts ht hbig
  constructor
  · exact rint_nonneg (by nlinarith)
  · exact rint_le_64 (by nlinarith)

lemma split_sp_bounds {l r tol : ℚ} (ht : 0 < tol)
    (hbig : |l| * 27 > tol * 23 ∨ |r| * 27 > tol * 23) :
    2113/10000 ≤ splittab.getD (splitIdx l r).toNat 0 ∧
      splittab.getD (splitIdx l r).toNat 0 ≤ 1/2 := by
  obtain ⟨h0, h64⟩ := splitIdx_bounds ht hbig
  have hlt : (splitIdx l r).toNat < splittab.length := by
    rw [splittab_length]
    omega
  exact splittab_mem_bounds _ (splittab_getD_mem hlt)

lemma splitpoint_branch_eq {l r tol : ℚ}
    (hbig : |l| * 27 > tol * 23 ∨ |r| * 27 > tol * 23) :
    splitpoint (some l) (some r) tol =
      (if splitWhichbig l r then 1 - splittab.getD (splitIdx l r).toNat 0
       else splittab.getD (splitIdx l r).toNat 0) := by
  simp only [splitpoint, if_pos hbig]

lemma splitpoint_branch_bounds {l r tol : ℚ} (ht : 0 < tol)
    (hbig : |l| * 27 > tol * 23 ∨ |r| * 27 > tol * 23) :
    2113/10000 ≤ splitpoint (some l) (some r) tol ∧
      splitpoint (some l) (some r) tol ≤ 7887/10000 := by
  obtain ⟨hs1, hs2⟩ := split_sp_bounds ht hbig
  rw [splitpoint_branch_eq hbig]
  split_ifs
  · constructor <;> linarith
  · constructor <;> linarith

/-! Evaluation lemmas for `splitpoint` at the spec's concrete scenario. -/

lemma abs_three_hundredths : |(3/100 : ℚ)| = 3/100 := abs_of_pos (by norm_num)

lemma abs_neg_three_hundredths : |(-3/100 : ℚ)| = 3/100 := by
  rw [abs_of_neg (by norm_num)]; norm_num

lemma whichbig_33 : splitWhichbig (3/100) (-3/100) = false := by
  unfold splitWhichbig
  rw [abs_three_hundredths, abs_neg_three_hundredths]
  simp

lemma quot_33 : splitQuot (3/100) (-3/100) = -1 := by
  unfold splitQuot
  rw [whichbig_33]
  norm_num

lemma idx_33 : splitIdx (3/100) (-3/100) = 0 := by
  unfold splitIdx
  rw [quot_33]
  norm_num [rint]

lemma sp_33 : splitpoint (some (3/100)) (some (-3/100)) (1/100) = 2113/10000 := by
  have hbig : |(3/100:ℚ)| * 27 > (1/100:ℚ) * 23 ∨ |(-3/100:ℚ)| * 27 > (1/100:ℚ) * 23 := by
    left
    rw [abs_three_hundredths]
    norm_num
  rw [splitpoint_branch_eq hbig, whichbig_33, idx_33]
  simp [splittab]

lemma sp_small : splitpoint (some (1/1000)) (some (1/1000)) (1/100) = 0 := by
  simp only [splitpoint]
  rw [if_neg]
  push_neg
  constructor <;> · rw [abs_of_pos (by norm_num)]; norm_num

lemma sp_nan : splitpoint none (some (2/100)) (1/100) = CCHALONG := rfl

/-- C3 counterexample: at the symmetric large deviations `(0.03, -0.03)` with
tolerance `0.01`, `splitpoint` returns 0.2113 (the first table entry), which
is not approximately 0.5 as the claim states — it is more than 1/4 away. -/
theorem splitpoint_symmetric_not_half :
    splitpoint (some (3/100)) (some (-3/100)) (1/100) = 2113/10000 ∧
    1/4 < |splitpoint (some (3/100)) (some (-3/100)) (1/100) - 1/2| := by
  refine ⟨sp_33, ?_⟩
  rw [sp_33, abs_of_neg (by norm_num)]
  norm_num

/-- C3 (amended): `splitpoint(NaN, 0.02, 0.01)` returns `CCHALONG`;
`splitpoint(0.001, 0.001, 0.01)` returns 0; and `splitpoint(0.03, -0.03,
0.01)` returns 0.2113, the first `splittab` entry (not ≈0.5: opposite-sign
equal-magnitude deviations give ratio -1, which indexes the near-end entry
of the table). -/
theorem splitpoint_scenarios :
    splitpoint none (some (2/100)) (1/100) = CCHALONG ∧
    splitpoint (some (1/1000)) (some (1/1000)) (1/100) = 0 ∧
    splitpoint (some (3/100)) (some (-3/100)) (1/100) = 2113/10000 :=
  ⟨sp_nan, sp_small, sp_33⟩

/-- C4: for every positive tolerance, a NaN left clamp yields `CCHALONG`, a
finite left with NaN right clamp yields `1 - CCHALONG`, and with both
finite the result is 0 exactly when both deviation magnitudes scaled by 27
are within the tolerance scaled by 23. -/
theorem splitpoint_nan_zero_iff (tol : ℚ) (ht : 0 < tol) :
    (∀ rc, splitpoint none rc tol = CCHALONG) ∧
    (∀ l, splitpoint (some l) none tol = 1 - CCHALONG) ∧
    (∀ l r, splitpoint (some l) (some r) tol = 0 ↔
      |l| * 27 ≤ tol * 23 ∧ |r| * 27 ≤ tol * 23) := by
  refine ⟨fun rc => rfl, fun l => rfl, fun l r => ?_⟩
  constructor
  · intro h0
    by_contra hc
    have hbig : |l| * 27 > tol * 23 ∨ |r| * 27 > tol * 23 := by
      rcases not_and_or.mp hc with h | h
      · exact Or.inl (not_le.mp h)
      · exact Or.inr (not_le.mp h)
    have hlow := (splitpoint_branch_bounds ht hbig).1
    rw [h0] at hlow
    norm_num at hlow
  · rintro ⟨h1, h2⟩
    simp only [splitpoint]
    rw [if_neg]
    push_neg
    exact ⟨h1, h2⟩

/-- C4 witness: the theorem applied at tolerance 1, right clamp 2. -/
theorem splitpoint_nan_zero_iff_w :
    (0:ℚ) < 1 ∧ splitpoint none (some 2) 1 = CCHALONG :=
  ⟨by norm_num, (splitpoint_nan_zero_iff 1 (by norm_num)).1 (some 2)⟩

/-- C10: whenever both clamps are finite, the tolerance is positive and at
least one deviation exceeds the scaled tolerance, the division in
`splitpoint` has a nonzero divisor, the ratio lies in [-1, 1], the table
index lies in [0, 64] (so the `splittab` access is in bounds), and the
returned split fraction lies in [0.2113, 0.7887]. -/
theorem splitpoint_table_safety (l r tol : ℚ) (ht : 0 < tol)
    (hbig : |l| * 27 > tol * 23 ∨ |r| * 27 > tol * 23) :
    splitDenom l r ≠ 0 ∧
    (-1 ≤ splitQuot l r ∧ splitQuot l r ≤ 1) ∧
    (0 ≤ splitIdx l r ∧ splitIdx l r ≤ 64) ∧
    (2113/10000 ≤ splitpoint (some l) (some r) tol ∧
      splitpoint (some l) (some r) tol ≤ 7887/10000) := by
  obtain ⟨h1, h2, h3⟩ := split_branch_facts ht hbig
  exact ⟨h1, ⟨h2, h3⟩, splitIdx_bounds ht hbig, splitpoint_branch_bounds ht hbig⟩

/-- C10 witness: the theorem applied at clamps 1 and 0, tolerance 1. -/
theorem splitpoint_table_safety_w :
    ((0:ℚ) < 1 ∧ (|(1:ℚ)| * 27 > 1 * 23 ∨ |(0:ℚ)| * 27 > 1 * 23)) ∧
      splitDenom 1 0 ≠ 0 :=
  ⟨⟨by norm_num, by norm_num⟩,
    (splitpoint_table_safety 1 0 1 (by norm_num) (by norm_num)).1⟩

/-- C2: the first smoothing pass (k = 0) hands `splitpoint` the tolerance
`conterval/10` and the second pass (k = 1) `conterval/2`, while the code's
own comment (contour.cpp lines 295-298) documents the opposite assignment;
the second pass is the one that first converts the polyline to spiral arcs. -/
theorem smooth_pass_tolerance_values (c : ℚ) (n : ℕ) :
    smoothPassTolerance c 0 n n = c * (1/10) ∧
    smoothPassTolerance c 1 n n = c * (1/2) ∧
    smoothPassConvertsFirst 0 = false ∧
    smoothPassConvertsFirst 1 = true := by
  unfold smoothPassTolerance smoothPassWide smoothPassConvertsFirst
  have hn : ¬ (2 * n < n) := by omega
  refine ⟨?_, ?_, rfl, rfl⟩ <;> rw [if_neg hn] <;> norm_num

/-- C5 counterexample: when the midpoint triangle exists but does not
contain the segment start (`inStart = false`), the claim says the
deviations come from the mesh-wide elevation query, but the code takes the
`else` branch and uses the triangle's own elevation function: with
triangle-local deviations NaN and mesh-wide deviations 0, the result is
`CCHALONG`, not `splitpoint 0 0 0 = 0`. -/
theorem smooth_fraction_uses_local_outside :
    smoothElevSource true false true true true = ElevSource.triLocal ∧
    smoothElevSource true false true true true ≠ ElevSource.meshWide ∧
    (smoothSplitFraction true false true true true (some 0) (some 0) none none 1 1).1 =
      CCHALONG ∧
    (smoothSplitFraction true false true true true (some 0) (some 0) none none 1 1).1 ≠
      splitpoint (some 0) (some 0) 0 := by
  have hz : splitpoint (some 0) (some 0) 0 = 0 := by
    simp only [splitpoint]
    rw [if_neg]
    push_neg
    simp
  refine ⟨rfl, by decide, rfl, ?_⟩
  rw [hz, show (smoothSplitFraction true false true true true (some 0) (some 0)
    none none 1 1).1 = CCHALONG from rfl]
  unfold CCHALONG
  norm_num

/-- C5 (amended): the triangle-local elevation is used exactly when the
midpoint triangle is found and it is not the case that it contains both
endpoints while missing a sample point; the mesh-wide query (with tolerance
0) is used when the triangle contains both endpoints but not both sample
points; and a null locate yields split fraction 1/2 with the anomaly
reported. -/
theorem smooth_fraction_cases (found inS inE inL inR : Bool)
    (dML dMR dTL dTR : Option ℚ) (c w : ℚ) :
    (found = true → inS = true → inE = true → inL = true → inR = true →
      smoothSplitFraction found inS inE inL inR dML dMR dTL dTR c w =
        (splitpoint dTL dTR (c * w), false)) ∧
    (found = true → inS = true → inE = true → ¬(inL = true ∧ inR = true) →
      smoothSplitFraction found inS inE inL inR dML dMR dTL dTR c w =
        (splitpoint dML dMR 0, false)) ∧
    (found = true → ¬(inS = true ∧ inE = true) →
      smoothSplitFraction found inS inE inL inR dML dMR dTL dTR c w =
        (splitpoint dTL dTR (c * w), false)) ∧
    (found = false →
      smoothSplitFraction found inS inE inL inR dML dMR dTL dTR c w = (1/2, true)) := by
  refine ⟨?_, ?_, ?_, ?_⟩
  · rintro rfl rfl rfl rfl rfl
    simp [smoothSplitFraction]
  · rintro rfl rfl rfl h
    cases inL <;> cases inR <;> simp_all [smoothSplitFraction]
  · rintro rfl h
    cases inS <;> cases inE <;> simp_all [smoothSplitFraction]
  · rintro rfl
    simp [smoothSplitFraction]

/-- C5 witness: the all-contained case applied at concrete flags and
deviations. -/
theorem smooth_fraction_cases_w :
    smoothSplitFraction true true true true true none none none none 1 1 =
      (splitpoint none none (1 * 1), false) :=
  (smooth_fraction_cases true true true true true none none none none 1 1).1
    rfl rfl rfl rfl rfl

/-! Claim C1: the two-pass structure of `contstarts`. -/

lemma contstartsEdge_zero (pl : Pointlist) (elev : ℚ) (i : ℕ) :
    contstartsEdge pl elev 0 i =
      (match pl.edges.get? i, edgeTriOf pl i with
       | some e, some tri => if e.isinterior then [] else edgeSeedsUpleft elev i tri
       | _, _ => []) := by
  unfold contstartsEdge edgeTriOf edgeSeedsUpleft
  cases he : pl.edges.get? i with
  | none => rfl
  | some e =>
    cases ht : (match e.tria with | some t => some t | none => e.trib) with
    | none =>
      cases hi : e.isinterior <;> simp [ht, hi]
    | some tid =>
      cases hg : pl.getTri tid with
      | none => cases hi : e.isinterior <;> simp [ht, hg, hi]
      | some tri =>
        cases hi : e.isinterior <;> simp [ht, hg, hi]

lemma contstartsEdge_one (pl : Pointlist) (elev : ℚ) (i : ℕ) :
    contstartsEdge pl elev 1 i =
      (match pl.edges.get? i, edgeTriOf pl i with
       | some e, some tri => if e.isinterior then edgeSeedsAll elev i tri else []
       | _, _ => []) := by
  unfold contstartsEdge edgeTriOf edgeSeedsAll
  cases he : pl.edges.get? i with
  | none => rfl
  | some e =>
    cases ht : (match e.tria with | some t => some t | none => e.trib) with
    | none =>
      cases hi : e.isinterior <;> simp [ht, hi]
    | some tid =>
      cases hg : pl.getTri tid with
      | none => cases hi : e.isinterior <;> simp [ht, hg, hi]
      | some tri =>
        cases hi : e.isinterior <;> simp [ht, hg, hi]

/-- C1 counterexample: on a mesh with a single exterior edge whose crossings
are not `upleft`, the code returns no seeds while the claimed rule (every
crossing on an exterior edge is a seed) would return all three. -/
theorem contstarts_exterior_not_all :
    contstarts pl0 0 = [] ∧ contstartsClaimed pl0 0 = [4, 5, 6] ∧
    contstarts pl0 0 ≠ contstartsClaimed pl0 0 := by decide

/-- C1 (amended): `contstarts` scans edges in two passes, all exterior edges
before all interior edges, each in edge-storage order, but the selection
rule is the reverse of the claim: on exterior edges only crossings
classified `upleft` are seeds, while on interior edges every crossing is a
seed. -/
theorem contstarts_two_pass (pl : Pointlist) (elev : ℚ) :
    contstarts pl elev = contstartsTwoPass pl elev := by
  unfold contstarts contstartsTwoPass
  rw [show List.range 2 = [0, 1] from rfl]
  have h0 := funext (contstartsEdge_zero pl elev)
  have h1 := funext (contstartsEdge_one pl elev)
  simp only [List.flatMap_cons, List.flatMap_nil, List.append_nil, h0, h1]

/-! Claim C9: iteration caps on the intra-triangle loops. -/

lemma innerBody_steps (tri : Triangle) (elev : ℚ) (s : InnerState) :
    (innerBody tri elev s).steps = s.steps + 1 := by
  simp only [innerBody]
  split
  · split
    · split <;> rfl
    · rfl
  · rfl

lemma innerLoop_steps_le (tri : Triangle) (elev : ℚ) :
    ∀ (fuel : ℕ) (s : InnerState),
      (innerLoop tri elev fuel s).steps ≤ max (s.steps + 1) 256 := by
  intro fuel
  induction fuel with
  | zero =>
    intro s
    simp only [innerLoop]
    omega
  | succ n ih =>
    intro s
    simp only [innerLoop]
    split
    · rename_i hc
      have h1 := ih (innerBody tri elev s)
      have h2 := innerBody_steps tri elev s
      have h4 : max ((innerBody tri elev s).steps + 1) 256 = 256 := by
        rw [h2]
        exact Nat.max_eq_right (by omega)
      rw [h4] at h1
      exact le_trans h1 (le_max_right _ _)
    · rw [innerBody_steps]
      exact le_max_left _ _

lemma inloop_length_le (tri : Triangle) (elev : ℚ) (start : ℤ) :
    ∀ (fuel : ℕ) (j : ℤ) (sube : List ℤ), sube.length ≤ 256 →
      (inloop tri elev start fuel j sube).2.length ≤ 256 := by
  intro fuel
  induction fuel with
  | zero => intro j sube h; exact h
  | succ n ih =>
    intro j sube h
    simp only [inloop]
    split
    · rename_i hc
      apply ih
      rcases hc with he | ⟨-, -, hlen⟩
      · subst he; simp
      · simp only [List.length_append, List.length_cons, List.length_nil]
        omega
    · exact h

/-- C9 (amended): the inner `proceed` loop of `trace` executes at most 256
steps per triangle and the sub-segment collection of `intrace` gathers at
most 256 entries, so both intra-triangle loops terminate for every behavior
of `proceed`; exhausting the cap silently exits the inner loop (no report
is emitted for it) and tracing continues from the exit sub-segment. -/
theorem inner_loops_bounded :
    (∀ (tri : Triangle) (elev : ℚ) (s : InnerState), s.steps = 0 →
      (innerLoop tri elev 256 s).steps ≤ 256) ∧
    (∀ (tri : Triangle) (elev : ℚ) (start : ℤ) (fuel : ℕ) (j : ℤ) (sube : List ℤ),
      sube.length ≤ 256 → (inloop tri elev start fuel j sube).2.length ≤ 256) := by
  constructor
  · intro tri elev s h0
    have h := innerLoop_steps_le tri elev 256 s
    rw [h0] at h
    simpa using h
  · intro tri elev start fuel j sube h
    exact inloop_length_le tri elev start fuel j sube h

/-- C9 witness: the cap theorem applied to the alternating triangle. -/
theorem inner_loops_bounded_w :
    innerStart0.steps = 0 ∧ (innerLoop triB 0 256 innerStart0).steps ≤ 256 :=
  ⟨rfl, inner_loops_bounded.1 triB 0 innerStart0 rfl⟩

/-- C9 counterexample: on the alternating triangle the inner loop runs the
full 256 steps with `proceed` still reporting progress, and the report
list stays empty — cap exhaustion is not reported as the claim states. -/
theorem inner_cap_exhaustion_unreported :
    (innerLoop triB 0 256 innerStart0).steps = 256 ∧
    0 ≤ (innerLoop triB 0 256 innerStart0).subnext ∧
    (innerLoop triB 0 256 innerStart0).reports = [] := by decide

/-! Claim C7: only finite crossing points are inserted. -/

lemma innerBody_finite (tri : Triangle) (elev : ℚ) (s : InnerState)
    (h : ∀ p ∈ s.pts, XY.isfinite p = true) :
    ∀ p ∈ (innerBody tri elev s).pts, XY.isfinite p = true := by
  simp only [innerBody]
  split
  · split
    · rename_i hfin
      split
      · intro p hp
        rcases List.mem_append.mp hp with hp | hp
        · exact h p hp
        · rw [List.mem_singleton.mp hp]
          exact hfin
      · exact h
    · exact h
  · exact h

lemma innerLoop_finite (tri : Triangle) (elev : ℚ) :
    ∀ (fuel : ℕ) (s : InnerState), (∀ p ∈ s.pts, XY.isfinite p = true) →
      ∀ p ∈ (innerLoop tri elev fuel s).pts, XY.isfinite p = true := by
  intro fuel
  induction fuel with
  | zero => intro s h; simpa [innerLoop] using h
  | succ n ih =>
    intro s h
    simp only [innerLoop]
    split
    · exact ih _ (innerBody_finite tri elev s h)
    · exact innerBody_finite tri elev s h

lemma innerRun_finite (tri : Triangle) (elev : ℚ) (s : TraceState)
    (h : ∀ p ∈ s.pts, XY.isfinite p = true) :
    ∀ p ∈ (innerRun tri elev s).pts, XY.isfinite p = true :=
  innerLoop_finite tri elev 256
    { subedge := tri.subdir s.edgep, subnext := 0, lastcept := s.lastcept,
      pts := s.pts, reports := s.reports, steps := 0 } h

lemma outerBody_finite (pl : Pointlist) (elev : ℚ) (s : TraceState)
    (h : ∀ p ∈ s.pts, XY.isfinite p = true) :
    ∀ p ∈ (outerBody pl elev s).pts, XY.isfinite p = true := by
  cases htri : pl.getTri s.triId with
  | none => simpa [outerBody, htri] using h
  | some tri =>
    have hIR := innerRun_finite tri elev s h
    simp only [outerBody, htri]
    split
    · exact hIR
    · split
      · exact hIR
      · split
        · rename_i hcond
          intro p hp
          rcases List.mem_append.mp hp with hp | hp
          · exact hIR p hp
          · rw [List.mem_singleton.mp hp]
            simp only [Bool.and_eq_true] at hcond
            exact hcond.2
        · exact hIR

lemma outerLoop_finite (pl : Pointlist) (elev : ℚ) :
    ∀ (fuel : ℕ) (s : TraceState), (∀ p ∈ s.pts, XY.isfinite p = true) →
      ∀ p ∈ (outerLoop pl elev fuel s).pts, XY.isfinite p = true := by
  intro fuel
  induction fuel with
  | zero => intro s h; simpa [outerLoop] using h
  | succ n ih =>
    intro s h
    simp only [outerLoop]
    split
    · exact ih _ (outerBody_finite pl elev s h)
    · exact outerBody_finite pl elev s h

lemma trace_pts_finite (pl : Pointlist) (ep : ℕ) (elev : ℚ) (fuel : ℕ) (marks : List ℕ) :
    ∀ p ∈ (trace pl ep elev fuel marks).pts, XY.isfinite p = true := by
  simp only [trace]
  repeat' split
  all_goals
    first
    | (intro p hp; cases hp)
    | (rename_i hfin
       apply outerLoop_finite
       intro p hp
       rw [List.mem_singleton.mp hp]
       exact hfin)

lemma intrace_pts_finite (tri : Triangle) (elev : ℚ) :
    ∀ p ∈ intrace tri elev, XY.isfinite p = true := by
  simp only [intrace]
  split
  · intro p hp
    rcases List.mem_filterMap.mp hp with ⟨sd, -, hf⟩
    split at hf
    · rename_i hfin
      cases hf
      exact hfin
    · cases hf
  · intro p hp
    simp at hp

/-- C7: every point of every polyline returned by `trace` or `intrace` is
finite — a crossing coordinate that evaluates to NaN is never inserted
into the output point list. -/
theorem trace_intrace_points_finite :
    (∀ (pl : Pointlist) (ep : ℕ) (elev : ℚ) (fuel : ℕ) (marks : List ℕ),
      ∀ p ∈ (trace pl ep elev fuel marks).pts, XY.isfinite p = true) ∧
    (∀ (tri : Triangle) (elev : ℚ), ∀ p ∈ intrace tri elev, XY.isfinite p = true) :=
  ⟨trace_pts_finite, intrace_pts_finite⟩

/-- C7 witness: the point produced by the one-step closed trace is finite. -/
theorem trace_intrace_points_finite_w :
    (XY.fin 0 0) ∈ (trace pl1 4 0 9 []).pts ∧ XY.isfinite (XY.fin 0 0) = true :=
  ⟨by decide, trace_intrace_points_finite.1 pl1 4 0 9 [] (XY.fin 0 0) (by decide)⟩

/-! Claim C8: the open/closed flag of a traced polyline. -/

lemma outerLoop_exit (pl : Pointlist) (elev : ℚ) :
    ∀ (fuel : ℕ) (s : TraceState), (outerLoop pl elev fuel s).finished = true →
      (outerLoop pl elev fuel s).ntri = none ∨
        (outerLoop pl elev fuel s).wasmarked = true := by
  intro fuel
  induction fuel with
  | zero =>
    intro s h
    simp [outerLoop] at h
  | succ n ih =>
    intro s h
    simp only [outerLoop] at h ⊢
    by_cases hc : ((outerBody pl elev s).ntri.isSome ∧
      (outerBody pl elev s).wasmarked = false)
    · rw [if_pos hc] at h ⊢
      exact ih _ h
    · rw [if_neg hc] at h ⊢
      rcases not_and_or.mp hc with h1 | h2
      · exact Or.inl (Option.not_isSome_iff_eq_none.mp h1)
      · right
        simpa using h2

/-- C8: when a trace's walk completes within fuel, the returned polyline is
open exactly when the walk terminated with a null neighboring triangle
(mesh boundary reached or the trace stopped mid-triangle); when it
terminated because the next crossing's edge was already marked while a
neighboring triangle existed, the polyline is closed. -/
theorem trace_open_iff_boundary (pl : Pointlist) (ep : ℕ) (elev : ℚ) (fuel : ℕ)
    (marks : List ℕ)
    (hfin : (trace pl ep elev fuel marks).finished = true)
    (hwalk : (trace pl ep elev fuel marks).walked = true) :
    ((trace pl ep elev fuel marks).isOpen = true ↔
      (trace pl ep elev fuel marks).finalNtri = none) ∧
    ((trace pl ep elev fuel marks).finalNtri ≠ none →
      (trace pl ep elev fuel marks).isOpen = false ∧
      (trace pl ep elev fuel marks).finalWasmarked = true) := by
  revert hfin hwalk
  simp only [trace]
  repeat' split
  all_goals intro hfin hwalk
  all_goals try (simp at hwalk)
  constructor
  · constructor
    · intro ho
      exact Option.isNone_iff_eq_none.mp ho
    · intro hn
      exact Option.isNone_iff_eq_none.mpr hn
  · intro hne
    rcases outerLoop_exit pl elev fuel _ hfin with h1 | h2
    · exact absurd h1 hne
    · refine ⟨?_, h2⟩
      rw [Bool.eq_false_iff]
      intro htrue
      exact hne (Option.isNone_iff_eq_none.mp htrue)

/-- C8 witness: the closed one-step trace, whose walk terminates on the
already-marked seed with a neighboring triangle present. -/
theorem trace_open_iff_boundary_w :
    ((trace pl1 4 0 9 []).finished = true ∧ (trace pl1 4 0 9 []).walked = true) ∧
    ((trace pl1 4 0 9 []).isOpen = true ↔ (trace pl1 4 0 9 []).finalNtri = none) :=
  ⟨⟨by decide, by decide⟩,
    (trace_open_iff_boundary pl1 4 0 9 [] (by decide) (by decide)).1⟩

/-! Claim C6: the mark invariant of one elevation sweep. -/

lemma outerBody_marks_sub (pl : Pointlist) (elev : ℚ) (s : TraceState) :
    ∀ x ∈ s.marks, x ∈ (outerBody pl elev s).marks := by
  intro x hx
  cases htri : pl.getTri s.triId with
  | none => simpa [outerBody, htri] using hx
  | some tri =>
    simp only [outerBody, htri]
    split
    · exact hx
    · exact List.mem_cons_of_mem _ hx

lemma outerLoop_marks_sub (pl : Pointlist) (elev : ℚ) :
    ∀ (fuel : ℕ) (s : TraceState), ∀ x ∈ s.marks,
      x ∈ (outerLoop pl elev fuel s).marks := by
  intro fuel
  induction fuel with
  | zero => intro s x hx; simpa [outerLoop] using hx
  | succ n ih =>
    intro s x hx
    simp only [outerLoop]
    split
    · exact ih _ x (outerBody_marks_sub pl elev s x hx)
    · exact outerBody_marks_sub pl elev s x hx

lemma trace_marks_sub (pl : Pointlist) (ep : ℕ) (elev : ℚ) (fuel : ℕ)
    (marks : List ℕ) : ∀ x ∈ marks, x ∈ (trace pl ep elev fuel marks).marks := by
  intro x hx
  simp only [trace]
  repeat' split
  all_goals
    first
    | exact hx
    | exact List.mem_cons_of_mem _ hx
    | exact outerLoop_marks_sub pl elev fuel _ x (List.mem_cons_of_mem _ hx)

lemma trace_seed_marked (pl : Pointlist) (ep : ℕ) (elev : ℚ) (fuel : ℕ)
    (marks : List ℕ) (e : Edge) (hE : pl.getEdge ep = some e)
    (hA : ∀ tid, e.tria = some tid → ∃ tri, pl.getTri tid = some tri) :
    ep ∈ (trace pl ep elev fuel marks).marks := by
  simp only [trace, hE]
  cases ha : e.tria with
  | none =>
    simp only [ha]
    cases hb : e.trib with
    | none => simp [markCall]
    | some tid =>
      cases hg : pl.getTri tid with
      | none => simp [hg, markCall]
      | some tri =>
        simp only [hg]
        split
        · exact outerLoop_marks_sub pl elev fuel _ ep (List.mem_cons_self _ _)
        · simp [markCall]
  | some tid =>
    obtain ⟨tri0, hg⟩ := hA tid ha
    simp only [ha, hg]
    by_cases hup : tri0.upleft (tri0.subdir ep) = true
    · rw [if_pos hup]
      simp only [hg]
      split
      · exact outerLoop_marks_sub pl elev fuel _ ep (List.mem_cons_self _ _)
      · simp [markCall]
    · rw [if_neg hup]
      cases hb : e.trib with
      | none => simp [hb, markCall]
      | some tid2 =>
        simp only [hb]
        cases hg2 : pl.getTri tid2 with
        | none => simp [hg2, markCall]
        | some tri2 =>
          simp only [hg2]
          split
          · exact outerLoop_marks_sub pl elev fuel _ ep (List.mem_cons_self _ _)
          · simp [markCall]

lemma contstartsEdge_mem (pl : Pointlist) (elev : ℚ) (io i : ℕ) (ep : ℕ)
    (h : ep ∈ contstartsEdge pl elev io i) :
    ∃ j, j < 3 ∧ ep = edgeHandle i j := by
  unfold contstartsEdge at h
  repeat' split at h
  all_goals
    first
    | cases h
    | (simp only [List.mem_filterMap, List.mem_range] at h
       obtain ⟨j, hj, hf⟩ := h
       split at hf
       · exact ⟨j, hj, (Option.some.inj hf).symm⟩
       · cases hf)

lemma getEdge_edgeHandle (pl : Pointlist) (i j : ℕ) (hi : i < pl.edges.length)
    (hj : j < 3) :
    ∃ e, pl.getEdge (edgeHandle i j) = some e ∧ e ∈ pl.edges := by
  unfold Pointlist.getEdge edgeHandle
  have hdiv : (4 * (i + 1) + j) / 4 - 1 = i := by omega
  rw [hdiv]
  rw [List.get?_eq_get hi]
  exact ⟨_, rfl, List.get_mem _ _ _⟩

lemma wfb_tria_ok (pl : Pointlist) (h : pl.wfb = true) (e : Edge)
    (he : e ∈ pl.edges) :
    ∀ tid, e.tria = some tid → ∃ tri, pl.getTri tid = some tri := by
  intro tid htid
  unfold Pointlist.wfb at h
  rw [List.all_eq_true] at h
  have h2 := h e he
  rw [htid] at h2
  simp only [Bool.and_eq_true, decide_eq_true_eq] at h2
  unfold Pointlist.getTri
  exact ⟨_, List.get?_eq_get h2.1⟩

lemma contstarts_seeds_ok (pl : Pointlist) (elev : ℚ) (hwf : pl.wfb = true) :
    ∀ sd ∈ contstarts pl elev, ∃ e, pl.getEdge sd = some e ∧
      (∀ tid, e.tria = some tid → ∃ tri, pl.getTri tid = some tri) := by
  intro sd hsd
  simp only [contstarts, List.mem_flatMap, List.mem_range] at hsd
  obtain ⟨io, -, i, hi, hmem⟩ := hsd
  obtain ⟨j, hj, rfl⟩ := contstartsEdge_mem pl elev io i _ hmem
  obtain ⟨e, hge, hmm⟩ := getEdge_edgeHandle pl i j hi hj
  exact ⟨e, hge, wfb_tria_ok pl hwf e hmm⟩

lemma seedLoop_marks_sub (pl : Pointlist) (elev : ℚ) (fuel : ℕ) :
    ∀ (seeds marks : List ℕ) (acc : List (List XY × Bool)) (x : ℕ), x ∈ marks →
      x ∈ (seedLoop pl elev fuel seeds marks acc).1 := by
  intro seeds
  induction seeds with
  | nil => intro marks acc x hx; exact hx
  | cons sd rest ih =>
    intro marks acc x hx
    simp only [seedLoop]
    split
    · exact ih marks acc x hx
    · exact ih _ _ x (trace_marks_sub pl sd elev fuel marks x hx)

lemma seedLoop_all_marked (pl : Pointlist) (elev : ℚ) (fuel : ℕ) :
    ∀ (seeds marks : List ℕ) (acc : List (List XY × Bool)),
      (∀ sd ∈ seeds, ∃ e, pl.getEdge sd = some e ∧
        (∀ tid, e.tria = some tid → ∃ tri, pl.getTri tid = some tri)) →
      ∀ sd ∈ seeds, sd ∈ (seedLoop pl elev fuel seeds marks acc).1 := by
  intro seeds
  induction seeds with
  | nil => intro marks acc hall sd hsd; cases hsd
  | cons s0 rest ih =>
    intro marks acc hall sd hsd
    simp only [seedLoop]
    split
    · rename_i hm
      rcases List.mem_cons.mp hsd with rfl | hsd'
      · refine seedLoop_marks_sub pl elev fuel rest marks acc sd ?_
        simpa [ismarked] using hm
      · exact ih marks acc (fun x hx => hall x (List.mem_cons_of_mem _ hx)) sd hsd'
    · rcases List.mem_cons.mp hsd with rfl | hsd'
      · obtain ⟨e, hE, hA⟩ := hall sd (List.mem_cons_self _ _)
        exact seedLoop_marks_sub pl elev fuel rest _ _ sd
          (trace_seed_marked pl sd elev fuel marks e hE hA)
      · exact ih _ _ (fun x hx => hall x (List.mem_cons_of_mem _ hx)) sd hsd'

/-- C6 (amended): after the boundary-trace loop of one elevation level of
`roughcontours` on a well-formed mesh, every seed handle returned by
`contstarts` is marked, so filtering the same seed list for unmarked
entries yields the empty list; and every handle in the final mark state has
been marked at least once — but not necessarily exactly once: the closing
handle of a trace receives a second, redundant mark call. -/
theorem roughcontours_seeds_marked (pl : Pointlist) (elev : ℚ) (fuel : ℕ)
    (hwf : pl.wfb = true) :
    (∀ sd ∈ contstarts pl elev, sd ∈ (roughcontoursLevel pl elev fuel).1) ∧
    (contstarts pl elev).filter
      (fun sd => !((roughcontoursLevel pl elev fuel).1.contains sd)) = [] ∧
    (∀ x ∈ (roughcontoursLevel pl elev fuel).1,
      1 ≤ (roughcontoursLevel pl elev fuel).1.count x) := by
  have hmain : ∀ sd ∈ contstarts pl elev, sd ∈ (roughcontoursLevel pl elev fuel).1 := by
    intro sd hsd
    exact seedLoop_all_marked pl elev fuel (contstarts pl elev) [] []
      (contstarts_seeds_ok pl elev hwf) sd hsd
  refine ⟨hmain, ?_, ?_⟩
  · rw [List.filter_eq_nil_iff]
    intro sd hsd
    simp [hmain sd hsd]
  · intro x hx
    exact List.count_pos_iff.mpr hx

/-- C6 witness: the mark theorem applied to the one-edge closed-loop mesh. -/
theorem roughcontours_seeds_marked_w :
    Pointlist.wfb pl1 = true ∧
    (∀ sd ∈ contstarts pl1 0, sd ∈ (roughcontoursLevel pl1 0 9).1) :=
  ⟨by decide, (roughcontours_seeds_marked pl1 0 9 (by decide)).1⟩

/-- C6 counterexample: on the one-edge closed-loop mesh the sweep marks the
seed handle 4 twice (once at trace start, once when the walk closes on it),
so the crossing reachable by the boundary trace is not marked exactly
once. -/
theorem roughcontours_double_mark :
    4 ∈ (roughcontoursLevel pl1 0 9).1 ∧
    (roughcontoursLevel pl1 0 9).1.count 4 ≠ 1 := by decide

end Bezitopo
